import Mathlib

/-!
Shallow embedding of the ingestion and statistics core of `app.py`
(bingo-pwa).  Pure fragments of the Python source are translated into
executable Lean definitions; stateful fragments (the sqlite store, the
polling loops) are modelled by explicit state passing over a list of
stored rows.  Network effects are modelled by passing the sequence of
outcomes the network would produce as an explicit argument.
-/

namespace BingoPwa

/-! ### Generic Python-behaviour helpers -/

/-- Model of `re.findall(r"\d{1,2}", text)`: greedy, non-overlapping scan
producing each maximal-up-to-two-digit token as a string.  Used by
`fetch_latest` (line 121), the official HTML parser (lines 242, 271, 296)
and the pilio parser (line 362) of `app.py`. -/
def findNums : List Char → List String
  | [] => []
  | c :: rest =>
    if c.isDigit then
      match rest with
      | d :: rest2 =>
        if d.isDigit then String.mk [c, d] :: findNums rest2
        else String.mk [c] :: findNums (d :: rest2)
      | [] => [String.mk [c]]
    else findNums rest

/-- Value of a digit string (`int(s)` for a string of decimal digits). -/
def numToNat (s : String) : Nat :=
  s.toList.foldl (fun a c => a * 10 + (c.toNat - 48)) 0

/-- Model of Python `s.zfill(2)` for the short tokens this program feeds it. -/
def pyZfill2 (s : String) : String :=
  if 2 ≤ s.length then s else if s.length = 1 then "0" ++ s else "00"

/-- Model of `str(int(n)).zfill(2)` (the helper `z2` at line 218 of `app.py`,
and the same idiom at lines 365 and 124) applied to a digit token below 100. -/
def z2 (s : String) : String :=
  let n := numToNat s
  if n < 10 then "0" ++ toString n else toString n

/-- Python exceptions that the modelled fragments can raise. -/
inductive PyErr where
  | valueError
  | typeError
deriving DecidableEq, Repr

/-- A JSON scalar as the feed may deliver it. -/
inductive JVal where
  | jnum (n : Int)
  | jstr (s : String)
  | jnull
deriving DecidableEq, Repr

/-- Model of Python `int(s)` on a string. -/
def pyIntStr (s : String) : Except PyErr Int :=
  if s.toList ≠ [] ∧ ∀ c ∈ s.toList, c.isDigit then .ok (Int.ofNat (numToNat s))
  else .error .valueError

/-- Model of Python `int(v)` on a JSON scalar. -/
def pyInt : JVal → Except PyErr Int
  | .jnum n => .ok n
  | .jstr s => pyIntStr s
  | .jnull => .error .typeError

/-- Model of `json.dumps` on a list of plain digit strings (line 76 and 394
of `app.py`). -/
def jsonDumps (l : List String) : String :=
  "[" ++ String.intercalate ", " (l.map (fun s => "\"" ++ s ++ "\"")) ++ "]"

/-! ### Fetch client: `safe_get` (app.py lines 93-110)

The network is modelled by a function from attempt index to the outcome
`requests.get` would produce on that attempt: either a received HTTP
response (of any status, with any body) or a raised exception. -/

/-- An HTTP response as `requests.get` returns it: status code and body. -/
structure Response where
  status : Nat
  body : String
deriving DecidableEq, Repr

/-- Outcome of a single `requests.get` call inside `safe_get`. -/
inductive Attempt where
  | ok (r : Response)
  | exc (e : Nat)
deriving DecidableEq, Repr

/-- Result of a whole `safe_get` call: a returned response, a re-raised
exception, or the implicit `None` fall-through when `max_retries = 0`. -/
inductive GetResult where
  | resp (r : Response)
  | raised (e : Nat)
  | fellThrough
deriving DecidableEq, Repr

/-- The retry loop of `safe_get` (lines 99-108): attempt `i` with
`remaining` loop iterations left.  A received response is returned at once;
an exception on the last iteration is re-raised, otherwise the loop sleeps
and continues with the next attempt. -/
def safe_get_go (attempts : Nat → Attempt) (i : Nat) : Nat → GetResult
  | 0 => .fellThrough
  | remaining + 1 =>
    match attempts i with
    | .ok r => .resp r
    | .exc e => if remaining = 0 then .raised e else safe_get_go attempts (i + 1) remaining

/-- `safe_get(url, headers, timeout, max_retries)` with the network
abstracted to the per-attempt outcomes. -/
def safe_get (attempts : Nat → Attempt) (max_retries : Nat) : GetResult :=
  safe_get_go attempts 0 max_retries

/-! ### Feed normalisation: `fetch_latest` (app.py lines 114-140)

The nested JSON document `data["content"]["lotteryBingoLatestPost"]` is
modelled by the structure `Post`; absent fields are `none`.  The two
`datetime.now()` reads inside `fetch_latest` are passed in as the `now`
argument. -/

/-- The `prizeNum` sub-object of the feed. -/
structure PrizeNum where
  bullEye : Option JVal
  highLow : Option String
  oddEven : Option String
deriving DecidableEq, Repr

/-- Shape of `post.get("openShowOrder")`: a delimited string, a list
(elements rendered through `str`), or anything else / absent. -/
inductive OpenShow where
  | strVal (s : String)
  | listVal (l : List String)
  | missing
deriving DecidableEq, Repr

/-- The `lotteryBingoLatestPost` record of the authoritative feed. -/
structure Post where
  drawTerm : Option JVal
  dDate : Option String
  openShowOrder : OpenShow
  prizeNum : Option PrizeNum
deriving DecidableEq, Repr

/-- The dictionary `fetch_latest` returns (lines 132-140). -/
structure LatestRecord where
  draw_term : Int
  draw_time : String
  open_order : List String
  super_number : Int
  high_low : Option String
  odd_even : Option String
  fetched_at : String
deriving DecidableEq, Repr

/-- Lines 127-131 of `app.py`: `super_n = post.get("prizeNum", {}).get("bullEye")`
followed by `try: int(super_n) except: int(open_order[-1]) if open_order else -1`.
The fallback itself re-parses the last padded token and may raise. -/
def superOf (bullEye : Option JVal) (open_order : List String) : Except PyErr Int :=
  let fallback : Except PyErr Int :=
    match open_order.getLast? with
    | some s => pyIntStr s
    | none => .ok (-1)
  match bullEye with
  | none => fallback
  | some v =>
    match pyInt v with
    | .ok n => .ok n
    | .error _ => fallback

/-- `fetch_latest` (lines 114-140), after the HTTP fetch and `r.json()`
succeeded, applied to the extracted post.  `now` stands for the two
`datetime.now().isoformat(timespec='seconds')` reads. -/
def fetch_latest (post : Post) (now : String) : Except PyErr LatestRecord :=
  let open_order : List String :=
    match post.openShowOrder with
    | .strVal s => (findNums s.toList).map pyZfill2
    | .listVal l => l.map pyZfill2
    | .missing => []
  let pn := post.prizeNum.getD ⟨none, none, none⟩
  match superOf pn.bullEye open_order with
  | .error e => .error e
  | .ok sn =>
    match pyInt (post.drawTerm.getD (.jnum 0)) with
    | .error e => .error e
    | .ok dt =>
      .ok { draw_term := dt
            draw_time := post.dDate.getD now
            open_order := open_order
            super_number := sn
            high_low := pn.highLow
            odd_even := pn.oddEven
            fetched_at := now }

/-! ### Storage (app.py lines 32-47, 69-80, 382-404)

The sqlite table `bingo_super` is modelled as a list of stored rows in
write order; `draw_term` is the primary key. -/

/-- One row of the `bingo_super` table, in the column order of the schema
(lines 32-41). -/
structure StoredRow where
  draw_term : Int
  draw_time : String
  super_number : Int
  open_order : String
  high_low : Option String
  odd_even : Option String
  fetched_at : String
deriving DecidableEq, Repr

/-- `upsert_row` (lines 69-80): `INSERT OR REPLACE` keyed on `draw_term` —
the conflicting row (if any) is deleted and the new row appended. -/
def upsert_row (s : List StoredRow) (r : LatestRecord) : List StoredRow :=
  s.filter (fun x => x.draw_term ≠ r.draw_term) ++
    [⟨r.draw_term, r.draw_time, r.super_number, jsonDumps r.open_order,
      r.high_low, r.odd_even, r.fetched_at⟩]

/-- One iteration body of `polling_loop` (lines 155-164): a failed fetch is
caught and logged; a fetched record is persisted iff its `draw_term` is
truthy (nonzero).  The CSV append mirrors the row write and is not
modelled separately. -/
def polling_step (s : List StoredRow) (fetched : Except PyErr LatestRecord) :
    List StoredRow :=
  match fetched with
  | .error _ => s
  | .ok r => if r.draw_term ≠ 0 then upsert_row s r else s

/-! ### Backfill parsers (app.py lines 170-378)

HTML retrieval and BeautifulSoup traversal are effectful; the embedding
captures the per-candidate decision logic exactly as written, with the
text window already extracted.  `today0` stands for
`datetime.now().replace(hour=0, minute=0, second=0, microsecond=0).isoformat()`. -/

/-- A candidate row as the parsers build it (lines 248-255, 277-284,
317-324, 368-375): no `fetched_at` yet — `upsert_many` adds it. -/
structure Row where
  draw_term : Int
  draw_time : String
  open_order : List String
  super_number : Int
  high_low : Option String
  odd_even : Option String
deriving DecidableEq, Repr

/-- Candidate construction shared by the official-page strategies
(lines 242-255, 271-284 and 296-324): given the 1-2 digit tokens found in
the window, the candidate is dropped unless there are exactly 20 of them;
otherwise each token is zero-padded and the special number is the last
padded token. -/
def official_candidate (term : Int) (raw : List String) (today0 : String) : Option Row :=
  if raw.length ≠ 20 then none
  else
    let oo := raw.map z2
    some ⟨term, today0, oo, Int.ofNat (numToNat (oo.getLastD "0")), none, none⟩

/-- Per-period candidate logic of `parse_today_from_pilio` (lines 356-375):
`window` is `txt[m.start() : m.end()+400]` — it starts at the period
marker, so the period digits themselves contribute 1-2 digit tokens.  A row
is built whenever at least 21 tokens are found, from the first 20 tokens
and the 21st. -/
def pilio_candidate (term : Int) (window : String) (today0 : String) : Option Row :=
  let nums := findNums window.toList
  if 21 ≤ nums.length then
    some ⟨term, today0, (nums.take 20).map z2,
          Int.ofNat (numToNat (nums.getD 20 "0")), none, none⟩
  else none

/-- Python `dict` comprehension `{r["draw_term"]: r for r in rows}` applied
row by row: a later duplicate key keeps its first position but replaces the
stored value. -/
def dictUpsert (acc : List Row) (r : Row) : List Row :=
  if acc.any (fun x => x.draw_term == r.draw_term) then
    acc.map (fun x => if x.draw_term == r.draw_term then r else x)
  else acc ++ [r]

/-- Stable insertion of a row into a list sorted ascending by `draw_term`. -/
def insertByTerm (r : Row) : List Row → List Row
  | [] => [r]
  | y :: ys => if r.draw_term < y.draw_term then r :: y :: ys else y :: insertByTerm r ys

/-- Lines 327 and 376 of `app.py`:
`sorted({r["draw_term"]: r for r in rows}.values(), key=lambda x: x["draw_term"])`. -/
def rowsSortDedup (rows : List Row) : List Row :=
  (rows.foldl dictUpsert []).foldl (fun acc r => insertByTerm r acc) []

/-- Outcome of one backfill cascade run together with which strategies were
invoked (the claim's call-count instrumentation). -/
structure CascadeResult where
  rows : List Row
  ran1 : Bool
  ran2 : Bool
  ran3 : Bool
  ran4 : Bool
deriving DecidableEq, Repr

/-- Control skeleton of `parse_today_from_official_html` (lines 221-329)
once an HTML document was retrieved, with the yields of the three
strategies (container scan, full-text scan, script scan) abstracted as
`y1 y2 y3`: strategy 2 runs only `if not rows` after strategy 1 (line 259),
strategy 3 only `if not rows` after strategy 2 (line 288), and the final
row list is sorted and deduplicated by term (line 327).  Returns the rows
and the ran-flags of strategies 2 and 3. -/
def parse_official (y1 y2 y3 : List Row) : List Row × Bool × Bool :=
  if y1 = [] then
    if y2 = [] then (rowsSortDedup y3, true, true)
    else (rowsSortDedup y2, true, false)
  else (rowsSortDedup y1, false, false)

/-- `backfill_today_once` cascade structure (lines 408-412): the official
parser runs first; `parse_today_from_pilio` (whose yield is `y4`, sorted
and deduplicated at line 376) runs only if the official parser produced no
rows. -/
def backfill_cascade (y1 y2 y3 y4 : List Row) : CascadeResult :=
  let p := parse_official y1 y2 y3
  if p.1 = [] then ⟨rowsSortDedup y4, true, p.2.1, p.2.2, true⟩
  else ⟨p.1, true, p.2.1, p.2.2, false⟩

/-! ### Bulk write: `upsert_many` (app.py lines 382-404) -/

/-- Conversion of a parsed row to a stored row at insert time (lines
390-398): `open_order` is serialised with `json.dumps` and `fetched_at` is
stamped with the current time. -/
def toStored (r : Row) (now : String) : StoredRow :=
  ⟨r.draw_term, r.draw_time, r.super_number, jsonDumps r.open_order,
    r.high_low, r.odd_even, now⟩

/-- Whether the table already holds a row with primary key `t`. -/
def hasTerm (s : List StoredRow) (t : Int) : Bool :=
  s.any (fun x => x.draw_term == t)

/-- `INSERT OR IGNORE` of one row (lines 387-400): inserted only if the
`draw_term` is absent, and `cur.rowcount` contributes 1 exactly when the
insert happened. -/
def insert_or_ignore (s : List StoredRow) (r : StoredRow) : List StoredRow × Nat :=
  if hasTerm s r.draw_term then (s, 0) else (s ++ [r], 1)

/-- `upsert_many(rows)` (lines 382-404): loop over the batch, ignore-insert
each row, return the new table and the number actually inserted. -/
def upsert_many (s : List StoredRow) (rows : List Row) (now : String) :
    List StoredRow × Nat :=
  match rows with
  | [] => (s, 0)
  | r :: rest =>
    let p := insert_or_ignore s (toStored r now)
    let q := upsert_many p.1 rest now
    (q.1, p.2 + q.2)

/-! ### Scheduler arithmetic (app.py lines 144-164) -/

/-- `seconds_until_next_five_minute` (lines 144-152) as a function of the
wall clock's minute, second and microsecond (valid for `minute < 60`,
`second < 60`, `micro < 1000000`): the distance to the next boundary whose
minute is divisible by 5, with `int(...)` truncating the fractional part. -/
def seconds_until_next_five_minute (minute second micro : Nat) : Nat :=
  let next_block := minute / 5 * 5 + 5
  let full := next_block * 60 - (minute * 60 + second)
  if micro = 0 then full else full - 1

/-- The sleep performed at the end of each `polling_loop` cycle (line 164):
`time.sleep(max(5, seconds_until_next_five_minute()))`. -/
def polling_sleep (minute second micro : Nat) : Nat :=
  max 5 (seconds_until_next_five_minute minute second micro)

/-! ### Statistics engine (app.py lines 457-491) -/

/-- Python slice `seq[-n:]` for a nonnegative `n`: note that `seq[-0:]` is
the whole list, not the empty list. -/
def pySliceLast (seq : List Int) (n : Nat) : List Int :=
  if n = 0 then seq else seq.drop (seq.length - n)

/-- The scan of `recency_unique` (lines 459-462): walk the list, keep each
value on first sight, remembering sightings in `seen`. -/
def dedupFirst : List Int → List Int → List Int
  | [], _ => []
  | n :: rest, seen =>
    if n ∈ seen then dedupFirst rest seen else n :: dedupFirst rest (n :: seen)

/-- `recency_unique(seq, take)` (lines 457-463): take the last `take`
elements, then scan them newest-to-oldest keeping first sightings. -/
def recency_unique (seq : List Int) (tk : Nat) : List Int :=
  dedupFirst (pySliceLast seq tk).reverse []

/-- Distinct values of a list in first-encounter order, as the keys of a
Python `Counter` are ordered. -/
def firstOccur : List Int → List Int
  | [] => []
  | x :: r => x :: (firstOccur r).filter (fun y => y ≠ x)

/-- Stable insertion for a descending sort by count. -/
def insertByCountDesc (cnt : Int → Nat) (x : Int) : List Int → List Int
  | [] => [x]
  | y :: ys => if cnt y < cnt x then x :: y :: ys else y :: insertByCountDesc cnt x ys

/-- `[n for (n, _) in Counter(l).most_common(2)]` (line 478): distinct
values sorted by descending count, ties kept in first-encounter order,
first two taken. -/
def most_common2 (l : List Int) : List Int :=
  ((firstOccur l).foldl (fun acc x => insertByCountDesc (fun v => l.count v) x acc) []).take 2

/-- Lines 480-481: `for n in today_top + rec_seq[:8]: if n not in pool:
pool.append(n)` starting from the given pool. -/
def pyDedupAppend (pool : List Int) : List Int → List Int
  | [] => pool
  | x :: r => pyDedupAppend (if x ∈ pool then pool else pool ++ [x]) r

/-- Lines 483-485: `while len(pool) < 5 and rec_seq: x = rec_seq.pop(0);
if x not in pool: pool.append(x)`. -/
def fillPool (pool : List Int) : List Int → List Int
  | [] => pool
  | x :: rest =>
    if pool.length < 5 then
      fillPool (if x ∈ pool then pool else pool ++ [x]) rest
    else pool

/-- The dictionary `recommend_numbers` returns. -/
structure Reco where
  pick1 : List Int
  pick3 : List Int
  pick5 : List Int
  rationale : String
deriving DecidableEq, Repr

/-- `recommend_numbers(today_supers, freq_top)` (lines 466-491).  The
module constant `MIN_TODAY_ROWS_FOR_RECO` is the parameter `minRows`
(default 15) and the database read
`SELECT super_number FROM bingo_super ORDER BY draw_term ASC`
is the parameter `all_supers`. -/
def recommend_numbers (minRows : Nat) (today_supers : List Int)
    (freq_top : List (Int × Nat)) (all_supers : List Int) : Reco :=
  if minRows ≤ today_supers.length ∧ freq_top ≠ [] then
    let base := freq_top.map Prod.fst
    ⟨base.take 1,
      if 3 ≤ base.length then base.take 3 else base,
      if 5 ≤ base.length then base.take 5 else base,
      "使用『今日熱度排行』做等配分散。"⟩
  else
    let today_top := most_common2 today_supers
    let rec_seq := recency_unique (pySliceLast all_supers 50) 20
    let pool := fillPool (pyDedupAppend [] (today_top ++ rec_seq.take 8)) rec_seq
    ⟨pool.take 1, pool.take 3, pool.take 5,
      "今日樣本不足：混合『今日熱度』+『近20期輪替前段』。"⟩

/-! ### The get-latest operation (app.py lines 513-531) -/

/-- Result of `/api/latest`: either the structured failure
`{ok: false, message: "no data"}` or `{ok: true, ...row fields...}`. -/
inductive LatestResult where
  | noData
  | found (r : StoredRow)
deriving DecidableEq, Repr

/-- `SELECT ... ORDER BY draw_term DESC LIMIT 1`: the row whose primary key
`draw_term` is largest (keys are unique in the table). -/
def maxByTerm : List StoredRow → Option StoredRow
  | [] => none
  | r :: rs =>
    match maxByTerm rs with
    | none => some r
    | some m => if r.draw_term < m.draw_term then some m else some r

/-- The `latest` route (lines 513-531). -/
def api_latest (s : List StoredRow) : LatestResult :=
  match maxByTerm s with
  | none => .noData
  | some r => .found r

/-! ### Theorems -/

theorem safe_get_go_first (attempts : Nat → Attempt) :
    ∀ (rem base j : Nat) (r : Response), j < rem →
      (∀ i, i < j → ∃ e, attempts (base + i) = .exc e) →
      attempts (base + j) = .ok r →
      safe_get_go attempts base rem = .resp r := by
  intro rem
  induction rem with
  | zero => intro base j r hj; omega
  | succ rem ih =>
    intro base j r hj hprev hok
    cases j with
    | zero =>
      simp only [Nat.add_zero] at hok
      simp [safe_get_go, hok]
    | succ j =>
      obtain ⟨e, he⟩ := hprev 0 (Nat.succ_pos j)
      simp only [Nat.add_zero] at he
      have hrem : rem ≠ 0 := by omega
      have step : ∀ i, i < j → ∃ e2, attempts (base + 1 + i) = .exc e2 := by
        intro i hi
        obtain ⟨e2, he2⟩ := hprev (i + 1) (by omega)
        exact ⟨e2, by rw [show base + 1 + i = base + (i + 1) by omega]; exact he2⟩
      have hok2 : attempts (base + 1 + j) = .ok r := by
        rw [show base + 1 + j = base + (j + 1) by omega]; exact hok
      have := ih (base + 1) j r (by omega) step hok2
      simp [safe_get_go, he, hrem, this]

/-- C1: the claim states that `safe_get` treats HTTP 403/503 responses and
challenge-page bodies as retryable soft failures and never returns them to
the caller.  Counterexample: when the very first attempt yields a 403
response whose body is a challenge-page marker, `safe_get` returns exactly
that response to the caller without retrying. -/
theorem safe_get_returns_403_counterexample :
    safe_get (fun _ => .ok ⟨403, "Just a moment..."⟩) 5 =
      .resp ⟨403, "Just a moment..."⟩ := by
  rfl

/-- C1 (amended): `safe_get` retries only when the underlying request
raises an exception; whenever attempt `j` is the first attempt within the
retry budget on which a response (of any status, with any body, 403/503
and challenge pages included) is actually received, that response is
returned to the caller unchanged — the status and body are never
inspected. -/
theorem safe_get_returns_first_response (attempts : Nat → Attempt)
    (max_retries j : Nat) (r : Response) (hj : j < max_retries)
    (hprev : ∀ i, i < j → ∃ e, attempts i = .exc e)
    (hok : attempts j = .ok r) :
    safe_get attempts max_retries = .resp r := by
  have h0 : ∀ i, i < j → ∃ e, attempts (0 + i) = .exc e := by
    intro i hi; simpa using hprev i hi
  have hok0 : attempts (0 + j) = .ok r := by simpa using hok
  exact safe_get_go_first attempts max_retries 0 j r hj h0 hok0

/-- C1 witness: after one transport error, the second attempt receives a
403 challenge response and `safe_get` hands it straight back. -/
theorem safe_get_returns_first_response_witness :
    (1 < 5) ∧
      safe_get (fun i => if i = 0 then .exc 7 else .ok ⟨403, "checking your browser"⟩) 5 =
        .resp ⟨403, "checking your browser"⟩ := by
  refine ⟨by norm_num, ?_⟩
  exact safe_get_returns_first_response _ 5 1 _ (by omega)
    (fun i hi => ⟨7, by have h : i = 0 := (by omega); subst h; rfl⟩) rfl

/-- C2: the claim states that every write path rejects a record whose
`open_order` length differs from 20 before persistence.  Counterexample on
the latest-poller path: a feed post with `drawTerm = 5` and
`openShowOrder = "01"` normalises to a record whose `open_order` has
length 1, and the polling step persists it into the empty store anyway —
`polling_loop` only checks that `draw_term` is truthy. -/
theorem latest_path_persists_short_open_order :
    fetch_latest ⟨some (.jnum 5), none, .strVal "01", none⟩ "T" =
      .ok ⟨5, "T", ["01"], 1, none, none, "T"⟩ ∧
    (["01"] : List String).length ≠ 20 ∧
    polling_step [] (fetch_latest ⟨some (.jnum 5), none, .strVal "01", none⟩ "T") =
      [⟨5, "T", 1, "[\"01\"]", none, none, "T"⟩] :=
  ⟨rfl, by decide, rfl⟩

/-- C2 (amended): only the backfill parsers enforce the length-20
invariant — every candidate row either parser accepts carries an
`open_order` of length exactly 20 — while the latest-poller path persists
records of any `open_order` length as long as `draw_term` is nonzero. -/
theorem backfill_rows_have_20_numbers :
    (∀ (term : Int) (raw : List String) (t0 : String) (r : Row),
        official_candidate term raw t0 = some r → r.open_order.length = 20) ∧
    (∀ (term : Int) (w t0 : String) (r : Row),
        pilio_candidate term w t0 = some r → r.open_order.length = 20) := by
  constructor
  · intro term raw t0 r h
    unfold official_candidate at h
    split at h
    · exact absurd h (by simp)
    · rename_i hlen
      cases h
      simp only [List.length_map]
      omega
  · intro term w t0 r h
    simp only [pilio_candidate] at h
    split at h
    · rename_i hlen
      cases h
      simp only [List.length_map, List.length_take]
      omega
    · exact absurd h (by simp)

/-- C2 witness: a 20-token candidate is accepted by the official parser and
its `open_order` indeed has length 20. -/
theorem backfill_rows_have_20_numbers_witness :
    official_candidate 1 (List.replicate 20 "7") "d" =
      some ⟨1, "d", List.replicate 20 "07", 7, none, none⟩ ∧
    (⟨1, "d", List.replicate 20 "07", 7, none, none⟩ : Row).open_order.length = 20 :=
  ⟨by decide, backfill_rows_have_20_numbers.1 1 (List.replicate 20 "7") "d" _ (by decide)⟩

/-- C3: the claim states that `fetch_latest` fails with a `MalformedFeed`
error when no usable period or open-order can be derived.  Counterexample:
on a post with every field missing, `fetch_latest` raises nothing and
returns an ordinary record (period 0, empty open order, special number
-1) — the source defines no `MalformedFeed` error at all. -/
theorem fetch_latest_no_malformed_error :
    fetch_latest ⟨none, none, .missing, none⟩ "T" =
      .ok ⟨0, "T", [], -1, none, none, "T"⟩ := rfl

/-- C3 (amended): on a post whose `drawTerm` and `openShowOrder` are
missing, `fetch_latest` succeeds with a sentinel record whose `draw_term`
is 0 and whose `open_order` is empty; the poll cycle then merely skips
persistence (the store is unchanged) instead of surfacing an error. -/
theorem fetch_latest_missing_fields_sentinel (post : Post) (now : String)
    (s : List StoredRow) (h1 : post.drawTerm = none)
    (h2 : post.openShowOrder = .missing) :
    ∃ rec, fetch_latest post now = .ok rec ∧ rec.draw_term = 0 ∧
      rec.open_order = [] ∧ polling_step s (fetch_latest post now) = s := by
  obtain ⟨dt, dd, oso, pn⟩ := post
  simp only at h1 h2
  subst h1; subst h2
  have hsup : ∃ n, superOf ((pn.getD ⟨none, none, none⟩).bullEye) [] = .ok n := by
    cases pn with
    | none => exact ⟨-1, rfl⟩
    | some p =>
      cases hbe : p.bullEye with
      | none => exact ⟨-1, by simp [superOf, hbe]⟩
      | some v =>
        cases hv : pyInt v with
        | ok n => exact ⟨n, by simp [superOf, hbe, hv]⟩
        | error e => exact ⟨-1, by simp [superOf, hbe, hv]⟩
  obtain ⟨n, hn⟩ := hsup
  have hfetch : fetch_latest ⟨none, dd, .missing, pn⟩ now =
      .ok ⟨0, dd.getD now, [], n, (pn.getD ⟨none, none, none⟩).highLow,
           (pn.getD ⟨none, none, none⟩).oddEven, now⟩ := by
    unfold fetch_latest
    simp only [hn, pyInt, Option.getD_none]
  refine ⟨_, hfetch, rfl, rfl, ?_⟩
  rw [hfetch]
  simp [polling_step]

/-- C3 witness: the all-missing post yields the sentinel record and leaves
a concrete store untouched. -/
theorem fetch_latest_missing_fields_sentinel_witness :
    ((⟨none, none, .missing, none⟩ : Post).drawTerm = none) ∧
    ((⟨none, none, .missing, none⟩ : Post).openShowOrder = .missing) ∧
    ∃ rec, fetch_latest ⟨none, none, .missing, none⟩ "T" = .ok rec ∧
      rec.draw_term = 0 ∧ rec.open_order = [] ∧
      polling_step [⟨1, "t", 2, "o", none, none, "f"⟩]
        (fetch_latest ⟨none, none, .missing, none⟩ "T") =
        [⟨1, "t", 2, "o", none, none, "f"⟩] :=
  ⟨rfl, rfl,
    fetch_latest_missing_fields_sentinel ⟨none, none, .missing, none⟩ "T"
      [⟨1, "t", 2, "o", none, none, "f"⟩] rfl rfl⟩

theorem hasTerm_insert_or_ignore (s : List StoredRow) (r : StoredRow) (t : Int)
    (h : hasTerm s t = true) : hasTerm (insert_or_ignore s r).1 t = true := by
  unfold insert_or_ignore
  split
  · exact h
  · simp only [hasTerm, List.any_append] at *
    simp [h]

theorem hasTerm_insert_self (s : List StoredRow) (r : StoredRow) :
    hasTerm (insert_or_ignore s r).1 r.draw_term = true := by
  unfold insert_or_ignore
  split
  · assumption
  · simp [hasTerm]

theorem hasTerm_upsert_many_mono (rows : List Row) (now : String) :
    ∀ (s : List StoredRow) (t : Int), hasTerm s t = true →
      hasTerm (upsert_many s rows now).1 t = true := by
  induction rows with
  | nil => intro s t h; exact h
  | cons r rest ih =>
    intro s t h
    exact ih _ t (hasTerm_insert_or_ignore s (toStored r now) t h)

theorem hasTerm_upsert_many_mem (rows : List Row) (now : String) :
    ∀ (s : List StoredRow) (r : Row), r ∈ rows →
      hasTerm (upsert_many s rows now).1 r.draw_term = true := by
  induction rows with
  | nil => intro s r h; cases h
  | cons x rest ih =>
    intro s r h
    rcases List.mem_cons.mp h with h | h
    · subst h
      exact hasTerm_upsert_many_mono rest now _ r.draw_term
        (hasTerm_insert_self s (toStored r now))
    · exact ih _ r h

theorem upsert_many_all_present (rows : List Row) (now : String) :
    ∀ (s : List StoredRow),
      (∀ r ∈ rows, hasTerm s r.draw_term = true) → upsert_many s rows now = (s, 0) := by
  induction rows with
  | nil => intro s _; rfl
  | cons x rest ih =>
    intro s h
    have hx : hasTerm s x.draw_term = true := h x (List.mem_cons_self x rest)
    have hins : insert_or_ignore s (toStored x now) = (s, 0) := by
      unfold insert_or_ignore
      rw [if_pos]
      exact hx
    unfold upsert_many
    rw [hins]
    have := ih s (fun r hr => h r (List.mem_cons_of_mem x hr))
    simp [this]

/-- C4: `ignore_upsert_many` (`upsert_many`) is idempotent — for every
store, every batch and any pair of ingestion timestamps, applying the
batch a second time returns the store produced by the first application
unchanged together with an inserted count of 0. -/
theorem upsert_many_idempotent (s : List StoredRow) (rows : List Row)
    (t1 t2 : String) :
    upsert_many (upsert_many s rows t1).1 rows t2 = ((upsert_many s rows t1).1, 0) := by
  apply upsert_many_all_present
  intro r hr
  exact hasTerm_upsert_many_mem rows t1 s r hr

theorem dedupFirst_snoc (l : List Int) (a : Int) (seen : List Int) :
    dedupFirst (l ++ [a]) seen =
      dedupFirst l seen ++ (if a ∈ l ∨ a ∈ seen then [] else [a]) := by
  induction l generalizing seen with
  | nil =>
    by_cases ha : a ∈ seen <;> simp [ha, dedupFirst]
  | cons x l ih =>
    simp only [List.cons_append, dedupFirst, List.append_eq]
    by_cases hx : x ∈ seen
    · rw [if_pos hx, if_pos hx, ih]
      by_cases ha : a = x
      · subst ha; simp [hx]
      · simp [List.mem_cons, ha]
    · rw [if_neg hx, if_neg hx, ih]
      by_cases ha : a = x
      · subst ha; simp [List.mem_cons]
      · by_cases hal : a ∈ l <;> by_cases has : a ∈ seen <;>
          simp [List.mem_cons, ha, hal, has]

theorem dedupFirst_reverse_eq (m : List Int) :
    dedupFirst m.reverse [] = m.dedup.reverse := by
  induction m with
  | nil => rfl
  | cons a m ih =>
    rw [List.reverse_cons, dedupFirst_snoc, ih]
    by_cases h : a ∈ m
    · rw [List.dedup_cons_of_mem h]
      simp [h]
    · rw [List.dedup_cons_of_not_mem h]
      simp [h]

theorem recency_unique_eq_dedup_reverse (seq : List Int) (tk : Nat) :
    recency_unique seq tk = ((pySliceLast seq tk).dedup).reverse :=
  dedupFirst_reverse_eq (pySliceLast seq tk)

/-- C5: the claim quantifies over every `take`; it fails at `take = 0`
because the Python slice `seq[-0:]` is the whole list, so
`recency_unique([1], 0)` returns `[1]`, whose length exceeds
`min(0, distinct(values)) = 0`. -/
theorem recency_unique_take_zero_counterexample :
    recency_unique [(1 : Int)] 0 = [1] ∧
    ¬ ((recency_unique [(1 : Int)] 0).length ≤ min 0 ([(1 : Int)].dedup.length)) := by
  decide

/-- C5 (amended): for every list of values and every `take ≥ 1`,
`recency_unique` returns a duplicate-free sequence of length at most
`min take (number of distinct values)`, and it equals the reverse of the
keep-last-occurrence deduplication of the last `take` elements — i.e. it
is ordered newest-first with each distinct value placed according to its
most recent occurrence. -/
theorem recency_unique_spec (seq : List Int) (tk : Nat) (h : 1 ≤ tk) :
    (recency_unique seq tk).Nodup ∧
    (recency_unique seq tk).length ≤ min tk seq.dedup.length ∧
    recency_unique seq tk = ((pySliceLast seq tk).dedup).reverse := by
  have heq := recency_unique_eq_dedup_reverse seq tk
  have hw : pySliceLast seq tk = seq.drop (seq.length - tk) := by
    unfold pySliceLast; rw [if_neg (by omega)]
  refine ⟨?_, ?_, heq⟩
  · rw [heq]
    simp [List.nodup_dedup]
  · rw [heq]
    simp only [List.length_reverse]
    refine le_min ?_ ?_
    · calc (pySliceLast seq tk).dedup.length
          ≤ (pySliceLast seq tk).length := (List.dedup_sublist _).length_le
        _ ≤ tk := by rw [hw]; simp only [List.length_drop]; omega
    · have hsub : (pySliceLast seq tk).dedup ⊆ seq.dedup := by
        intro x hx
        have hx1 : x ∈ pySliceLast seq tk := List.dedup_subset _ hx
        have hx2 : x ∈ seq := by
          rw [hw] at hx1; exact List.drop_subset _ _ hx1
        exact List.mem_dedup.mpr hx2
      exact ((List.nodup_dedup _).subperm hsub).length_le

/-- C5 witness: the amended statement evaluated at `[5, 3, 5]` with
`take = 2`. -/
theorem recency_unique_spec_witness :
    (1 ≤ 2) ∧
      ((recency_unique [5, 3, 5] 2).Nodup ∧
        (recency_unique [5, 3, 5] 2).length ≤ min 2 ([(5 : Int), 3, 5].dedup.length) ∧
        recency_unique [5, 3, 5] 2 = ((pySliceLast [5, 3, 5] 2).dedup).reverse) :=
  ⟨by decide, recency_unique_spec [5, 3, 5] 2 (by decide)⟩

theorem dictUpsert_ne_nil (acc : List Row) (r : Row) : dictUpsert acc r ≠ [] := by
  unfold dictUpsert
  split
  · rename_i h
    intro hc
    rw [List.map_eq_nil_iff] at hc
    subst hc
    simp [List.any_nil] at h
  · simp

theorem foldl_dictUpsert_ne_nil (l : List Row) :
    ∀ (acc : List Row), acc ≠ [] → l.foldl dictUpsert acc ≠ [] := by
  induction l with
  | nil => intro acc h; simpa using h
  | cons x xs ih => intro acc _; exact ih (dictUpsert acc x) (dictUpsert_ne_nil acc x)

theorem insertByTerm_ne_nil (r : Row) (l : List Row) : insertByTerm r l ≠ [] := by
  cases l with
  | nil => simp [insertByTerm]
  | cons y ys =>
    unfold insertByTerm
    split <;> simp

theorem foldl_insertByTerm_ne_nil (l : List Row) :
    ∀ (acc : List Row), acc ≠ [] → l.foldl (fun a r => insertByTerm r a) acc ≠ [] := by
  induction l with
  | nil => intro acc h; simpa using h
  | cons x xs ih => intro acc _; exact ih (insertByTerm x acc) (insertByTerm_ne_nil x acc)

theorem rowsSortDedup_eq_nil_iff (l : List Row) : rowsSortDedup l = [] ↔ l = [] := by
  constructor
  · intro h
    cases l with
    | nil => rfl
    | cons x xs =>
      exfalso
      unfold rowsSortDedup at h
      have h1 : (x :: xs).foldl dictUpsert [] ≠ [] := by
        simp only [List.foldl_cons]
        exact foldl_dictUpsert_ne_nil xs (dictUpsert [] x) (dictUpsert_ne_nil [] x)
      cases hd : (x :: xs).foldl dictUpsert [] with
      | nil => exact h1 hd
      | cons y ys =>
        rw [hd] at h
        simp only [List.foldl_cons] at h
        exact foldl_insertByTerm_ne_nil ys (insertByTerm y [])
          (insertByTerm_ne_nil y []) h
  · intro h; subst h; rfl

/-- C6: the backfill cascade runs its four strategies in strict order and
stops at the first one that yields rows — strategy 1 always runs, and each
later strategy runs exactly when every earlier strategy yielded nothing;
in particular, when strategy 1 yields at least one row, strategies 2-4 are
not invoked and the run's rows are strategy 1's rows (sorted and
deduplicated by period). -/
theorem backfill_cascade_short_circuits (y1 y2 y3 y4 : List Row) :
    (backfill_cascade y1 y2 y3 y4).ran1 = true ∧
    ((backfill_cascade y1 y2 y3 y4).ran2 = true ↔ y1 = []) ∧
    ((backfill_cascade y1 y2 y3 y4).ran3 = true ↔ (y1 = [] ∧ y2 = [])) ∧
    ((backfill_cascade y1 y2 y3 y4).ran4 = true ↔ (y1 = [] ∧ y2 = [] ∧ y3 = [])) ∧
    (y1 ≠ [] → (backfill_cascade y1 y2 y3 y4).rows = rowsSortDedup y1) := by
  unfold backfill_cascade parse_official
  by_cases h1 : y1 = [] <;> by_cases h2 : y2 = [] <;> by_cases h3 : y3 = [] <;>
    simp [h1, h2, h3, rowsSortDedup_eq_nil_iff]

/-- C6 witness: with strategy 1 yielding one row and the later strategies
anything, the cascade's rows are strategy 1's rows. -/
theorem backfill_cascade_short_circuits_witness :
    ([(⟨1, "d", ["01"], 1, none, none⟩ : Row)] ≠ []) ∧
    (backfill_cascade [⟨1, "d", ["01"], 1, none, none⟩] [] [] []).rows =
      rowsSortDedup [⟨1, "d", ["01"], 1, none, none⟩] :=
  ⟨by simp,
    (backfill_cascade_short_circuits [⟨1, "d", ["01"], 1, none, none⟩] [] [] []).2.2.2.2
      (by simp)⟩

/-- C7: the claim states that the mirror parser accepts a candidate only
when the period marker is followed by exactly 20 comma-delimited numbers
and an explicit special-number marker.  Counterexample: a window holding
the marker and only 16 comma-delimited numbers, with no special-number
marker at all, is accepted — the period digits themselves supply 5 extra
1-2 digit tokens, reaching the ≥ 21 token threshold, and the resulting
`open_order` even begins with fragments of the period number. -/
theorem pilio_candidate_accepts_16_numbers :
    pilio_candidate 115011453
        "期別: 115011453】 01, 02, 03, 04, 05, 06, 07, 08, 09, 10, 11, 12, 13, 14, 15, 16"
        "d" =
      some ⟨115011453, "d",
        ["11", "50", "11", "45", "03", "01", "02", "03", "04", "05", "06", "07",
         "08", "09", "10", "11", "12", "13", "14", "15"], 16, none, none⟩ := by
  decide

/-- C7 (amended): `parse_today_from_pilio` accepts a candidate row exactly
when the 400-character window starting at the period marker contains at
least 21 one-or-two-digit tokens (the period digits themselves counting as
tokens); it never checks for a special-number marker.  An accepted row
takes the first 20 tokens (zero-padded) as `open_order` — hence length
20 — and the 21st token as the special number; fewer than 21 tokens yield
no row (and no error). -/
theorem pilio_candidate_spec (term : Int) (w t0 : String) :
    ((pilio_candidate term w t0).isSome ↔ 21 ≤ (findNums w.toList).length) ∧
    (∀ r, pilio_candidate term w t0 = some r →
      r.open_order = ((findNums w.toList).take 20).map z2 ∧
      r.open_order.length = 20 ∧
      r.super_number = Int.ofNat (numToNat ((findNums w.toList).getD 20 "0"))) := by
  constructor
  · simp only [pilio_candidate]
    split
    · rename_i h; simpa using h
    · rename_i h; simpa using h
  · intro r h
    simp only [pilio_candidate] at h
    split at h
    · rename_i hlen
      cases h
      refine ⟨rfl, ?_, rfl⟩
      simp only [List.length_map, List.length_take]
      omega
    · exact absurd h (by simp)

/-- C7 witness: a window with 21 digit tokens is accepted, and the accepted
row has the stated shape. -/
theorem pilio_candidate_spec_witness :
    pilio_candidate 7 "1,2,3,4,5,6,7,8,9,10,11,12,13,14,15,16,17,18,19,20,21" "d" =
      some ⟨7, "d",
        ["01", "02", "03", "04", "05", "06", "07", "08", "09", "10", "11", "12",
         "13", "14", "15", "16", "17", "18", "19", "20"], 21, none, none⟩ ∧
    ((⟨7, "d",
        ["01", "02", "03", "04", "05", "06", "07", "08", "09", "10", "11", "12",
         "13", "14", "15", "16", "17", "18", "19", "20"], 21, none, none⟩ : Row).open_order =
        ((findNums ("1,2,3,4,5,6,7,8,9,10,11,12,13,14,15,16,17,18,19,20,21").toList).take 20).map z2 ∧
      (⟨7, "d",
        ["01", "02", "03", "04", "05", "06", "07", "08", "09", "10", "11", "12",
         "13", "14", "15", "16", "17", "18", "19", "20"], 21, none, none⟩ : Row).open_order.length = 20 ∧
      (⟨7, "d",
        ["01", "02", "03", "04", "05", "06", "07", "08", "09", "10", "11", "12",
         "13", "14", "15", "16", "17", "18", "19", "20"], 21, none, none⟩ : Row).super_number =
        Int.ofNat (numToNat ((findNums ("1,2,3,4,5,6,7,8,9,10,11,12,13,14,15,16,17,18,19,20,21").toList).getD 20 "0"))) :=
  ⟨by decide,
    (pilio_candidate_spec 7 "1,2,3,4,5,6,7,8,9,10,11,12,13,14,15,16,17,18,19,20,21" "d").2
      _ (by decide)⟩

/-- C8: the claim states that with today's special numbers
`[64, 64, 12, 7, 64]` and the recency view beginning `[64, 7, 12, 9, 3]`,
the recommendation pool starts with `[64, 7]`.  Counterexample: it starts
with `[64, 12]` — `Counter.most_common(2)` breaks the count-1 tie between
12 and 7 by first-encounter order, and 12 is encountered before 7. -/
theorem recommend_pool_counterexample :
    (recommend_numbers 15 [64, 64, 12, 7, 64] [(64, 3), (12, 1), (7, 1)]
        [3, 9, 12, 7, 64]).pick5.take 2 ≠ [64, 7] := by
  decide

/-- C8 (amended): in the insufficient-sample branch (5 records < threshold
15) with today's specials `[64, 64, 12, 7, 64]` and all-time specials
`[3, 9, 12, 7, 64]` (whose recency-unique view is `[64, 7, 12, 9, 3]`),
the pool starts with `[64, 12]` and is filled from the recency sequence,
`pick1 = [64]`, and the rationale is the blended-fallback message. -/
theorem recommend_insufficient_blend :
    recommend_numbers 15 [64, 64, 12, 7, 64] [(64, 3), (12, 1), (7, 1)]
        [3, 9, 12, 7, 64] =
      ⟨[64], [64, 12, 7], [64, 12, 7, 9, 3],
        "今日樣本不足：混合『今日熱度』+『近20期輪替前段』。"⟩ := by
  decide

theorem seconds_until_eq (minute second : Nat) :
    seconds_until_next_five_minute minute second 0 =
      (minute / 5 * 5 + 5) * 60 - (minute * 60 + second) := by
  simp [seconds_until_next_five_minute]

/-- C9: the claim states the poller sleeps exactly
`seconds_until_next_five_minute()` with no other adjustment.
Counterexample: at wall-clock xx:04:57 the boundary is 3 seconds away but
the loop sleeps `max(5, 3) = 5` seconds. -/
theorem polling_sleep_counterexample :
    seconds_until_next_five_minute 4 57 0 = 3 ∧
    polling_sleep 4 57 0 = 5 ∧
    polling_sleep 4 57 0 ≠ seconds_until_next_five_minute 4 57 0 := by
  decide

/-- C9 (amended): `seconds_until_next_five_minute` returns the positive
distance (at most 300 s) to the next wall-clock boundary divisible by 5
minutes, so the cycle is phase-aligned to clock boundaries; the loop
however sleeps `max(5, ·)`, which equals the computed delay only when that
delay is at least 5 seconds. -/
theorem polling_sleep_spec (minute second : Nat) (hm : minute < 60) (hs : second < 60) :
    (minute * 60 + second + seconds_until_next_five_minute minute second 0) % 300 = 0 ∧
    1 ≤ seconds_until_next_five_minute minute second 0 ∧
    seconds_until_next_five_minute minute second 0 ≤ 300 ∧
    polling_sleep minute second 0 = max 5 (seconds_until_next_five_minute minute second 0) ∧
    (5 ≤ seconds_until_next_five_minute minute second 0 →
      polling_sleep minute second 0 = seconds_until_next_five_minute minute second 0) := by
  refine ⟨?_, ?_, ?_, rfl, ?_⟩
  · rw [seconds_until_eq]; omega
  · rw [seconds_until_eq]; omega
  · rw [seconds_until_eq]; omega
  · intro h
    unfold polling_sleep
    exact Nat.max_eq_right h

/-- C9 witness: the amended statement evaluated at wall-clock xx:07:30. -/
theorem polling_sleep_spec_witness :
    (7 < 60) ∧ (30 < 60) ∧
      ((7 * 60 + 30 + seconds_until_next_five_minute 7 30 0) % 300 = 0 ∧
        1 ≤ seconds_until_next_five_minute 7 30 0 ∧
        seconds_until_next_five_minute 7 30 0 ≤ 300 ∧
        polling_sleep 7 30 0 = max 5 (seconds_until_next_five_minute 7 30 0) ∧
        (5 ≤ seconds_until_next_five_minute 7 30 0 →
          polling_sleep 7 30 0 = seconds_until_next_five_minute 7 30 0)) :=
  ⟨by decide, by decide, polling_sleep_spec 7 30 (by decide) (by decide)⟩

theorem maxByTerm_cons_none (a : StoredRow) (s : List StoredRow)
    (h : maxByTerm s = none) : maxByTerm (a :: s) = some a := by
  simp [maxByTerm, h]

theorem maxByTerm_cons_some (a : StoredRow) (s : List StoredRow) (m : StoredRow)
    (h : maxByTerm s = some m) :
    maxByTerm (a :: s) = if a.draw_term < m.draw_term then some m else some a := by
  simp [maxByTerm, h]

theorem maxByTerm_eq_none (s : List StoredRow) : maxByTerm s = none ↔ s = [] := by
  cases s with
  | nil => simp [maxByTerm]
  | cons a s =>
    constructor
    · intro h
      exfalso
      cases hm : maxByTerm s with
      | none => rw [maxByTerm_cons_none a s hm] at h; cases h
      | some m =>
        rw [maxByTerm_cons_some a s m hm] at h
        by_cases hlt : a.draw_term < m.draw_term
        · rw [if_pos hlt] at h; cases h
        · rw [if_neg hlt] at h; cases h
    · intro h; exact absurd h (List.cons_ne_nil a s)

theorem maxByTerm_spec (s : List StoredRow) :
    ∀ r, maxByTerm s = some r → r ∈ s ∧ ∀ x ∈ s, x.draw_term ≤ r.draw_term := by
  induction s with
  | nil => intro r h; cases h
  | cons a s ih =>
    intro r h
    cases hm : maxByTerm s with
    | none =>
      rw [maxByTerm_cons_none a s hm] at h
      injection h with h2
      subst h2
      have hs : s = [] := (maxByTerm_eq_none s).mp hm
      subst hs
      refine ⟨List.mem_singleton_self a, ?_⟩
      intro x hx
      simp at hx
      subst hx
      exact le_refl _
    | some m =>
      rw [maxByTerm_cons_some a s m hm] at h
      obtain ⟨hmem, hmax⟩ := ih m hm
      by_cases hlt : a.draw_term < m.draw_term
      · rw [if_pos hlt] at h
        injection h with h2
        subst h2
        refine ⟨List.mem_cons_of_mem a hmem, ?_⟩
        intro x hx
        rcases List.mem_cons.mp hx with hx | hx
        · subst hx; exact le_of_lt hlt
        · exact hmax x hx
      · rw [if_neg hlt] at h
        injection h with h2
        subst h2
        refine ⟨List.mem_cons_self a s, ?_⟩
        intro x hx
        rcases List.mem_cons.mp hx with hx | hx
        · subst hx; exact le_refl _
        · exact le_trans (hmax x hx) (le_of_not_lt hlt)

/-- C10: the get-latest operation returns the stored row whose `draw_term`
is maximal over the whole store (not the most recently written row — the
store list is in write order and the returned row may sit anywhere in it),
and returns the structured no-data failure exactly on the empty store. -/
theorem api_latest_spec (s : List StoredRow) :
    (s = [] → api_latest s = .noData) ∧
    (∀ r, api_latest s = .found r → r ∈ s ∧ ∀ x ∈ s, x.draw_term ≤ r.draw_term) := by
  constructor
  · intro h; subst h; rfl
  · intro r h
    cases hm : maxByTerm s with
    | none =>
      have ha : api_latest s = .noData := by simp [api_latest, hm]
      rw [ha] at h
      cases h
    | some m =>
      have ha : api_latest s = .found m := by simp [api_latest, hm]
      rw [ha] at h
      injection h with h2
      subst h2
      exact maxByTerm_spec s m hm

/-- C10 witness: in a store where the most recently written row has the
smaller period, get-latest returns the earlier-written row with the larger
period. -/
theorem api_latest_spec_witness :
    api_latest [⟨5, "t1", 1, "o1", none, none, "f1"⟩, ⟨3, "t2", 2, "o2", none, none, "f2"⟩] =
      .found ⟨5, "t1", 1, "o1", none, none, "f1"⟩ ∧
    ((⟨5, "t1", 1, "o1", none, none, "f1"⟩ : StoredRow) ∈
        [⟨5, "t1", 1, "o1", none, none, "f1"⟩, ⟨3, "t2", 2, "o2", none, none, "f2"⟩] ∧
      ∀ x ∈ [(⟨5, "t1", 1, "o1", none, none, "f1"⟩ : StoredRow),
             ⟨3, "t2", 2, "o2", none, none, "f2"⟩],
        x.draw_term ≤ (⟨5, "t1", 1, "o1", none, none, "f1"⟩ : StoredRow).draw_term) :=
  ⟨by decide,
    (api_latest_spec
        [⟨5, "t1", 1, "o1", none, none, "f1"⟩, ⟨3, "t2", 2, "o2", none, none, "f2"⟩]).2
      ⟨5, "t1", 1, "o1", none, none, "f1"⟩ (by decide)⟩

end BingoPwa
